import Mathlib

/-!
Verification of the reconciliation and FIFO consumption engine of the
goldbullion repository.

The engine lives in `App.tsx` (`recalculateAllData`, `loadData`); the data
shapes (`Invoice`, `InventoryBatch`) are given by their construction sites and
by the storage mapping in `services/supabase.ts`.  Decimal (JS `number`)
quantities are embedded as `ℚ`; the source's epsilon constant `0.0001` is the
rational `1/10000`.  The `kind`/`type` field is embedded as a `String` because
the engine branches on `inv.type === 'PURCHASE'` at runtime, where any string
can occur (rows come from storage).  Audit-log strings produced with the
formatting helpers `formatGrams`/`formatCurrency` are embedded as structured
`LogLine` entries carrying the same data (quantity, batch date, unit cost),
since only their content, not their rendering, is specified.
-/

/-- The floating-point tolerance used by the engine: `0.0001` grams. -/
def eps : ℚ := 1 / 10000

/-- One entry of a sale's consumption/audit log (`fifoLog` in the source).
`noTimestamp` is the "No Timestamp. Sequence assumed by ID." warning pushed
before the lot walk; `consumed q d c` is the line
"(q) from (d) @ (c)" pushed per consumed chunk; `stockout q` is the
"STOCKOUT: (q) sold without inventory!" line. -/
inductive LogLine where
  | noTimestamp : LogLine
  | consumed (grams : ℚ) (batchDate : String) (costPerGram : ℚ) : LogLine
  | stockout (grams : ℚ) : LogLine
deriving DecidableEq, Repr

/-- A transaction (`Invoice` in the source).  `createdAt` is optional: rows
mapped from the cloud (`mapOrderFromDB`) and legacy local rows lack it.
`cogs`, `profit`, `fifoLog` are the engine-computed fields. -/
structure Invoice where
  id : String
  date : String
  createdAt : Option String
  type : String
  partyName : String
  quantityGrams : ℚ
  ratePerGram : ℚ
  gstRate : ℚ
  gstAmount : ℚ
  taxableAmount : ℚ
  totalAmount : ℚ
  cogs : ℚ
  profit : ℚ
  fifoLog : List LogLine
deriving DecidableEq, Repr

/-- An inventory lot (`InventoryBatch` in the source), created once per
PURCHASE with the purchase's `id` and `date`. -/
structure InventoryBatch where
  id : String
  date : String
  originalQuantity : ℚ
  remainingQuantity : ℚ
  costPerGram : ℚ
  closedDate : Option String
deriving DecidableEq, Repr

/-- Comparison of two characters by code point. -/
def cmpChar (a b : Char) : Ordering :=
  if a.toNat < b.toNat then Ordering.lt
  else if b.toNat < a.toNat then Ordering.gt
  else Ordering.eq

/-- Lexicographic comparison of character lists. -/
def cmpChars : List Char → List Char → Ordering
  | [], [] => Ordering.eq
  | [], _ :: _ => Ordering.lt
  | _ :: _, [] => Ordering.gt
  | a :: as, b :: bs =>
    match cmpChar a b with
    | Ordering.eq => cmpChars as bs
    | o => o

/-- String comparison embedding `a.localeCompare(b)`: lexicographic order on
the characters (the ids and ISO dates compared by the source are plain
ASCII, where locale collation agrees with code-point order). -/
def cmpStr (a b : String) : Ordering := cmpChars a.data b.data

/-- The sequencer comparator of `recalculateAllData`:
1. business `date`; 2. `createdAt`, only when both sides have one;
3. `id` as the final tie-break. -/
def cmpInv (a b : Invoice) : Ordering :=
  match cmpStr a.date b.date with
  | Ordering.eq =>
    match a.createdAt, b.createdAt with
    | some ta, some tb =>
      match cmpStr ta tb with
      | Ordering.eq => cmpStr a.id b.id
      | o => o
    | _, _ => cmpStr a.id b.id
  | o => o

/-- Stable insertion of one invoice into an already sorted list: the new
element goes in front of the first element that compares greater than it. -/
def insertInv (x : Invoice) : List Invoice → List Invoice
  | [] => [x]
  | y :: ys => if cmpInv x y = Ordering.lt then x :: y :: ys else y :: insertInv x ys

/-- The sequencer sort `[...allInvoices].sort(comparator)`, embedded as a
stable insertion sort.  JavaScript's `Array.prototype.sort` is required to be
stable, and every stable sort agrees with this one whenever the comparator is
a strict weak order; when the comparator is not transitive (see claim C1) no
sort of any kind can produce a content-only order. -/
def sortInv (l : List Invoice) : List Invoice := l.foldr insertInv []

/-- Result of walking the lot list for one sale: the updated lot list, the
quantity still unmet (`remainingToSell`), the accumulated COGS, and the
consumption lines pushed during the walk. -/
structure ConsumeResult where
  batches : List InventoryBatch
  need : ℚ
  cogs : ℚ
  log : List LogLine
deriving DecidableEq, Repr

/-- The lot-walk of the SALE branch of `recalculateAllData`:
for each batch in order, first `if (remainingToSell <= 0) break;`, then
batches with `remainingQuantity > 0.0001` give up
`take = min(remainingQuantity, remainingToSell)`; a batch whose remainder
drops strictly below `0.0001` is snapped to `0` and stamped with the sale's
date as `closedDate`. -/
def consumeLots (saleDate : String) (batches : List InventoryBatch) (need : ℚ) :
    ConsumeResult :=
  match batches with
  | [] => ⟨[], need, 0, []⟩
  | b :: bs =>
    if need ≤ 0 then ⟨b :: bs, need, 0, []⟩
    else if eps < b.remainingQuantity then
      let take := min b.remainingQuantity need
      let rem := b.remainingQuantity - take
      let b' : InventoryBatch :=
        if rem < eps then
          { b with remainingQuantity := 0, closedDate := some saleDate }
        else { b with remainingQuantity := rem }
      let r := consumeLots saleDate bs (need - take)
      ⟨b' :: r.batches, r.need, take * b.costPerGram + r.cogs,
        LogLine.consumed take b.date b.costPerGram :: r.log⟩
    else
      let r := consumeLots saleDate bs need
      ⟨b :: r.batches, r.need, r.cogs, r.log⟩

/-- The SALE branch of `recalculateAllData`: push the no-timestamp warning
when `createdAt` is absent, walk the lots, push the stockout warning when the
unmet quantity stays above the epsilon, and set
`profit = (taxableAmount || quantity * rate) - cogs` (the JS `||` treats a
zero `taxableAmount` as absent). -/
def processSale (inv : Invoice) (inventory : List InventoryBatch) :
    Invoice × List InventoryBatch :=
  let warn : List LogLine := if inv.createdAt.isNone then [LogLine.noTimestamp] else []
  let r := consumeLots inv.date inventory inv.quantityGrams
  let log := warn ++ r.log ++ (if eps < r.need then [LogLine.stockout r.need] else [])
  let profit :=
    (if inv.taxableAmount = 0 then inv.quantityGrams * inv.ratePerGram
     else inv.taxableAmount) - r.cogs
  ({ inv with cogs := r.cogs, profit := profit, fifoLog := log }, r.batches)

/-- The replay state: open/closed lots so far and the processed invoices. -/
structure EngineState where
  inventory : List InventoryBatch
  processed : List Invoice
deriving DecidableEq, Repr

/-- One iteration of the replay loop of `recalculateAllData`:
a PURCHASE appends a fresh lot and is annotated with zero `cogs`/`profit`
and an empty log; anything else runs the SALE branch. -/
def replayStep (st : EngineState) (inv : Invoice) : EngineState :=
  if inv.type = "PURCHASE" then
    { inventory := st.inventory ++
        [⟨inv.id, inv.date, inv.quantityGrams, inv.quantityGrams, inv.ratePerGram, none⟩],
      processed := st.processed ++ [{ inv with cogs := 0, profit := 0, fifoLog := [] }] }
  else
    let res := processSale inv st.inventory
    { inventory := res.2, processed := st.processed ++ [res.1] }

/-- The empty starting state (`currentInventory = []`, `processedInvoices = []`). -/
def initState : EngineState := ⟨[], []⟩

/-- Result record of `recalculateAllData`. -/
structure RecalcResult where
  updatedInvoices : List Invoice
  updatedInventory : List InventoryBatch
deriving DecidableEq, Repr

/-- `recalculateAllData`: sort a copy of the input with the sequencer
comparator, then replay it against an empty lot list. -/
def recalculateAllData (allInvoices : List Invoice) : RecalcResult :=
  let st := (sortInv allInvoices).foldl replayStep initState
  ⟨st.processed, st.inventory⟩

/-- The local records absent from the cloud, `loadData`'s
`localOrders.filter(lo => !cloudIds.has(lo.id))`. -/
def unsyncedLocalOrders (cloudOrders localOrders : List Invoice) : List Invoice :=
  localOrders.filter (fun lo => !((cloudOrders.map Invoice.id).contains lo.id))

/-- The candidate transaction set `loadData` feeds to `recalculateAllData`
when the cloud fetch succeeded: local when the cloud is empty and local is
not, cloud plus the unsynced locals when some exist, cloud alone otherwise. -/
def finalOrders (cloudOrders localOrders : List Invoice) : List Invoice :=
  if cloudOrders.length = 0 ∧ 0 < localOrders.length then localOrders
  else if 0 < (unsyncedLocalOrders cloudOrders localOrders).length then
    cloudOrders ++ unsyncedLocalOrders cloudOrders localOrders
  else cloudOrders

/-- The dashboard's unsynced-records indicator:
`hasMissing = localCount > cloudCount`, where `localCount` is the size of the
local cache and `cloudCount` the size of the displayed (reconciled) invoice
list. -/
def hasMissing (localCount cloudCount : ℕ) : Bool := decide (cloudCount < localCount)

/-- Total quantity drained from a lot list: the sum of
`originalQuantity - remainingQuantity`. -/
def drained (bs : List InventoryBatch) : ℚ :=
  (bs.map (fun b => b.originalQuantity - b.remainingQuantity)).sum

/-- Number of closed lots (lots with a `closedDate`). -/
def closedCount (bs : List InventoryBatch) : ℕ :=
  (bs.filter (fun b => b.closedDate.isSome)).length

/-- Sum of the stockout quantities recorded in one log. -/
def stockoutSum (log : List LogLine) : ℚ :=
  (log.map (fun e => match e with | LogLine.stockout q => q | _ => 0)).sum

/-- Sum of the stockout quantities recorded across a list of invoices. -/
def invStockoutSum (l : List Invoice) : ℚ :=
  (l.map (fun i => stockoutSum i.fifoLog)).sum

/-- Total quantity consumed according to a log's consumption lines. -/
def logQty (log : List LogLine) : ℚ :=
  (log.map (fun e => match e with | LogLine.consumed q _ _ => q | _ => 0)).sum

/-- Total cost accumulated according to a log's consumption lines. -/
def logCost (log : List LogLine) : ℚ :=
  (log.map (fun e => match e with | LogLine.consumed q _ c => q * c | _ => 0)).sum

/-- Total quantity of the SALE transactions of a list. -/
def saleQtySum (l : List Invoice) : ℚ :=
  (l.map (fun i => if i.type = "SALE" then i.quantityGrams else 0)).sum

/-- Number of SALE transactions of a list. -/
def saleCount (l : List Invoice) : ℕ :=
  (l.filter (fun i => i.type == "SALE")).length

/-- Total quantity of the transactions the engine runs through the SALE
branch (every non-PURCHASE kind). -/
def npQtySum (l : List Invoice) : ℚ :=
  (l.map (fun i => if i.type = "PURCHASE" then 0 else i.quantityGrams)).sum

/-- Number of transactions the engine runs through the SALE branch. -/
def npCount (l : List Invoice) : ℕ :=
  (l.filter (fun i => !(i.type == "PURCHASE"))).length

/-- The caller-supplied fields of a transaction: everything except the
engine-computed `cogs`, `profit` and `fifoLog`. -/
def baseFields (i : Invoice) :
    String × String × Option String × String × String × ℚ × ℚ × ℚ × ℚ × ℚ × ℚ :=
  (i.id, i.date, i.createdAt, i.type, i.partyName, i.quantityGrams, i.ratePerGram,
   i.gstRate, i.gstAmount, i.taxableAmount, i.totalAmount)

/-! ### Order-theoretic facts about the sequencer comparator -/

theorem cmpChar_lt_iff (a b : Char) : cmpChar a b = Ordering.lt ↔ a.toNat < b.toNat := by
  unfold cmpChar
  split_ifs with h1 h2 <;> simp [h1]

theorem cmpChar_eq_iff (a b : Char) : cmpChar a b = Ordering.eq ↔ a = b := by
  unfold cmpChar
  split_ifs with h1 h2
  · constructor
    · intro h; simp at h
    · intro h; subst h; exact absurd h1 (lt_irrefl _)
  · constructor
    · intro h; simp at h
    · intro h; subst h; exact absurd h2 (lt_irrefl _)
  · have hn : a.toNat = b.toNat := le_antisymm (le_of_not_lt h2) (le_of_not_lt h1)
    have hab : a = b := by
      have h := congrArg Char.ofNat hn
      rwa [Char.ofNat_toNat, Char.ofNat_toNat] at h
    simp [hab]

theorem cmpChar_swap (a b : Char) : cmpChar b a = (cmpChar a b).swap := by
  unfold cmpChar
  rcases lt_trichotomy a.toNat b.toNat with h | h | h
  · simp [h, asymm h, Ordering.swap]
  · simp [h, lt_irrefl, Ordering.swap]
  · simp [h, asymm h, Ordering.swap]

theorem cmpChar_lt_trans {a b c : Char} (h1 : cmpChar a b = Ordering.lt)
    (h2 : cmpChar b c = Ordering.lt) : cmpChar a c = Ordering.lt := by
  rw [cmpChar_lt_iff] at h1 h2 ⊢
  exact lt_trans h1 h2

theorem cmpChars_eq_iff (a b : List Char) : cmpChars a b = Ordering.eq ↔ a = b := by
  induction a generalizing b with
  | nil => cases b <;> simp [cmpChars]
  | cons x xs ih =>
    cases b with
    | nil => simp [cmpChars]
    | cons y ys =>
      rcases h : cmpChar x y with _ | _ | _
      · constructor
        · intro hh
          simp only [cmpChars, h] at hh
          exact Ordering.noConfusion hh
        · rintro ⟨rfl, rfl⟩
          rw [(cmpChar_eq_iff x x).mpr rfl] at h
          exact Ordering.noConfusion h
      · have hxy : x = y := (cmpChar_eq_iff x y).mp h
        subst hxy
        simp [cmpChars, h, ih]
      · constructor
        · intro hh
          simp only [cmpChars, h] at hh
          exact Ordering.noConfusion hh
        · rintro ⟨rfl, rfl⟩
          rw [(cmpChar_eq_iff x x).mpr rfl] at h
          exact Ordering.noConfusion h

theorem cmpChars_swap (a b : List Char) : cmpChars b a = (cmpChars a b).swap := by
  induction a generalizing b with
  | nil => cases b <;> simp [cmpChars, Ordering.swap]
  | cons x xs ih =>
    cases b with
    | nil => simp [cmpChars, Ordering.swap]
    | cons y ys =>
      simp only [cmpChars]
      rw [cmpChar_swap x y]
      rcases h : cmpChar x y with _ | _ | _ <;> simp [Ordering.swap, ih]

theorem cmpChars_lt_trans {a b c : List Char} (h1 : cmpChars a b = Ordering.lt)
    (h2 : cmpChars b c = Ordering.lt) : cmpChars a c = Ordering.lt := by
  induction a generalizing b c with
  | nil =>
    cases b with
    | nil => simp [cmpChars] at h1
    | cons y ys => cases c with
      | nil => simp [cmpChars] at h2
      | cons z zs => simp [cmpChars]
  | cons x xs ih =>
    cases b with
    | nil => simp [cmpChars] at h1
    | cons y ys =>
      cases c with
      | nil => simp [cmpChars] at h2
      | cons z zs =>
        rcases hxy : cmpChar x y with _ | _ | _ <;>
          rcases hyz : cmpChar y z with _ | _ | _ <;>
          simp only [cmpChars, hxy, hyz] at h1 h2 ⊢ <;>
          try exact Ordering.noConfusion h1
        all_goals try exact Ordering.noConfusion h2
        · simp only [cmpChar_lt_trans hxy hyz]
        · have hz : y = z := (cmpChar_eq_iff y z).mp hyz
          subst hz
          simp only [hxy]
        · have hx : x = y := (cmpChar_eq_iff x y).mp hxy
          subst hx
          simp only [hyz]
        · have hx : x = y := (cmpChar_eq_iff x y).mp hxy
          subst hx
          have hz : x = z := (cmpChar_eq_iff x z).mp hyz
          subst hz
          simp only [hxy]
          exact ih h1 h2

theorem cmpStr_eq_iff (a b : String) : cmpStr a b = Ordering.eq ↔ a = b := by
  unfold cmpStr
  rw [cmpChars_eq_iff]
  exact ⟨String.ext, fun h => by rw [h]⟩

theorem cmpStr_swap (a b : String) : cmpStr b a = (cmpStr a b).swap := cmpChars_swap _ _

theorem cmpStr_lt_trans {a b c : String} (h1 : cmpStr a b = Ordering.lt)
    (h2 : cmpStr b c = Ordering.lt) : cmpStr a c = Ordering.lt := cmpChars_lt_trans h1 h2

theorem cmpInv_swap (a b : Invoice) : cmpInv b a = (cmpInv a b).swap := by
  unfold cmpInv
  rw [cmpStr_swap a.date b.date]
  rcases hd : cmpStr a.date b.date with _ | _ | _
  · rfl
  · cases ha : a.createdAt with
    | none =>
      cases hb : b.createdAt with
      | none => exact cmpStr_swap a.id b.id
      | some tb => exact cmpStr_swap a.id b.id
    | some ta =>
      cases hb : b.createdAt with
      | none => exact cmpStr_swap a.id b.id
      | some tb =>
        show (match cmpStr tb ta with
          | Ordering.eq => cmpStr b.id a.id
          | o => o) =
          (match cmpStr ta tb with
            | Ordering.eq => cmpStr a.id b.id
            | o => o).swap
        rw [cmpStr_swap ta tb]
        rcases ht : cmpStr ta tb with _ | _ | _
        · rfl
        · exact cmpStr_swap a.id b.id
        · rfl
  · rfl

theorem cmpInv_not_gt_of_not_lt {a b : Invoice} (h : cmpInv a b ≠ Ordering.lt) :
    cmpInv b a ≠ Ordering.gt := by
  rw [cmpInv_swap a b]
  rcases hc : cmpInv a b with _ | _ | _ <;> simp [Ordering.swap]
  exact absurd hc h

theorem cmpInv_eq_of_le_le {a b : Invoice} (h1 : cmpInv a b ≠ Ordering.gt)
    (h2 : cmpInv b a ≠ Ordering.gt) : cmpInv a b = Ordering.eq := by
  rw [cmpInv_swap a b] at h2
  rcases hc : cmpInv a b with _ | _ | _
  · rw [hc] at h2; simp [Ordering.swap] at h2
  · rfl
  · exact absurd hc h1

/-- A comparator tie forces equal dates and equal ids. -/
theorem cmpInv_eq_parts {a b : Invoice} (h : cmpInv a b = Ordering.eq) :
    a.date = b.date ∧ a.id = b.id := by
  unfold cmpInv at h
  rcases hd : cmpStr a.date b.date with _ | _ | _ <;> rw [hd] at h
  · exact Ordering.noConfusion h
  · refine ⟨(cmpStr_eq_iff _ _).mp hd, ?_⟩
    cases ha : a.createdAt <;> cases hb : b.createdAt <;> simp only [ha, hb] at h
    · exact (cmpStr_eq_iff _ _).mp h
    · exact (cmpStr_eq_iff _ _).mp h
    · exact (cmpStr_eq_iff _ _).mp h
    · rename_i ta tb
      rcases ht : cmpStr ta tb with _ | _ | _ <;> rw [ht] at h
      · exact Ordering.noConfusion h
      · exact (cmpStr_eq_iff _ _).mp h
      · exact Ordering.noConfusion h
  · exact Ordering.noConfusion h

/-- For invoices both carrying a `createdAt`, a comparator tie forces the
whole ordering key (date, createdAt, id) to agree. -/
theorem cmpInv_eq_key {a b : Invoice} (ha : a.createdAt.isSome) (hb : b.createdAt.isSome)
    (h : cmpInv a b = Ordering.eq) :
    a.date = b.date ∧ a.createdAt = b.createdAt ∧ a.id = b.id := by
  obtain ⟨hd, hi⟩ := cmpInv_eq_parts h
  refine ⟨hd, ?_, hi⟩
  unfold cmpInv at h
  rw [(cmpStr_eq_iff _ _).mpr hd] at h
  obtain ⟨ta, hta⟩ := Option.isSome_iff_exists.mp ha
  obtain ⟨tb, htb⟩ := Option.isSome_iff_exists.mp hb
  simp only [hta, htb] at h
  rcases ht : cmpStr ta tb with _ | _ | _ <;> rw [ht] at h
  · exact Ordering.noConfusion h
  · rw [hta, htb, (cmpStr_eq_iff _ _).mp ht]
  · exact Ordering.noConfusion h

/-- The comparator reads only the date, the timestamp and the id of its left
argument. -/
theorem cmpInv_congr_left {a b c : Invoice} (hd : a.date = b.date)
    (ht : a.createdAt = b.createdAt) (hi : a.id = b.id) : cmpInv a c = cmpInv b c := by
  unfold cmpInv
  rw [hd, ht, hi]

/-- The comparator reads only the date, the timestamp and the id of its right
argument. -/
theorem cmpInv_congr_right {a b c : Invoice} (hd : b.date = c.date)
    (ht : b.createdAt = c.createdAt) (hi : b.id = c.id) : cmpInv a b = cmpInv a c := by
  unfold cmpInv
  rw [hd, ht, hi]

/-- Strict transitivity of the comparator on invoices that all carry a
`createdAt` timestamp. -/
theorem cmpInv_lt_trans {a b c : Invoice} (ha : a.createdAt.isSome)
    (hb : b.createdAt.isSome) (hc : c.createdAt.isSome)
    (h1 : cmpInv a b = Ordering.lt) (h2 : cmpInv b c = Ordering.lt) :
    cmpInv a c = Ordering.lt := by
  obtain ⟨ta, hta⟩ := Option.isSome_iff_exists.mp ha
  obtain ⟨tb, htb⟩ := Option.isSome_iff_exists.mp hb
  obtain ⟨tc, htc⟩ := Option.isSome_iff_exists.mp hc
  unfold cmpInv at h1 h2 ⊢
  simp only [hta, htb, htc] at h1 h2 ⊢
  rcases hab : cmpStr a.date b.date with _ | _ | _ <;> rw [hab] at h1
  · rcases hbc : cmpStr b.date c.date with _ | _ | _ <;> rw [hbc] at h2
    · simp only [cmpStr_lt_trans hab hbc]
    · have hdc : b.date = c.date := (cmpStr_eq_iff _ _).mp hbc
      rw [← hdc]
      simp only [hab]
    · exact Ordering.noConfusion h2
  · have hdab : a.date = b.date := (cmpStr_eq_iff _ _).mp hab
    replace h1 : (match cmpStr ta tb with
        | Ordering.eq => cmpStr a.id b.id
        | o => o) = Ordering.lt := h1
    rcases hbc : cmpStr b.date c.date with _ | _ | _ <;> rw [hbc] at h2
    · have h3 : cmpStr a.date c.date = Ordering.lt := by rw [hdab]; exact hbc
      simp only [h3]
    · have h3 : cmpStr a.date c.date = Ordering.eq := by rw [hdab]; exact hbc
      simp only [h3]
      replace h2 : (match cmpStr tb tc with
          | Ordering.eq => cmpStr b.id c.id
          | o => o) = Ordering.lt := h2
      rcases htab : cmpStr ta tb with _ | _ | _ <;> rw [htab] at h1
      · rcases htbc : cmpStr tb tc with _ | _ | _ <;> rw [htbc] at h2
        · simp only [cmpStr_lt_trans htab htbc]
        · have h4 : tb = tc := (cmpStr_eq_iff _ _).mp htbc
          rw [← h4]
          simp only [htab]
        · exact Ordering.noConfusion h2
      · have h4 : ta = tb := (cmpStr_eq_iff _ _).mp htab
        replace h1 : cmpStr a.id b.id = Ordering.lt := h1
        rcases htbc : cmpStr tb tc with _ | _ | _ <;> rw [htbc] at h2
        · have h5 : cmpStr ta tc = Ordering.lt := by rw [h4]; exact htbc
          simp only [h5]
        · have h5 : cmpStr ta tc = Ordering.eq := by rw [h4]; exact htbc
          simp only [h5]
          replace h2 : cmpStr b.id c.id = Ordering.lt := h2
          exact cmpStr_lt_trans h1 h2
        · exact Ordering.noConfusion h2
      · exact Ordering.noConfusion h1
    · exact Ordering.noConfusion h2
  · exact Ordering.noConfusion h1

/-- Weak transitivity: `lt` then `not gt` gives `lt`, on timestamped
invoices. -/
theorem cmpInv_lt_of_lt_of_le {a b c : Invoice} (ha : a.createdAt.isSome)
    (hb : b.createdAt.isSome) (hc : c.createdAt.isSome)
    (h1 : cmpInv a b = Ordering.lt) (h2 : cmpInv b c ≠ Ordering.gt) :
    cmpInv a c = Ordering.lt := by
  rcases h2c : cmpInv b c with _ | _ | _
  · exact cmpInv_lt_trans ha hb hc h1 h2c
  · obtain ⟨hd, ht, hi⟩ := cmpInv_eq_key hb hc h2c
    rw [← cmpInv_congr_right hd ht hi]
    exact h1
  · exact absurd h2c h2

/-- Transitivity of "not greater" on timestamped invoices. -/
theorem cmpInv_le_trans {a b c : Invoice} (ha : a.createdAt.isSome)
    (hb : b.createdAt.isSome) (hc : c.createdAt.isSome)
    (h1 : cmpInv a b ≠ Ordering.gt) (h2 : cmpInv b c ≠ Ordering.gt) :
    cmpInv a c ≠ Ordering.gt := by
  rcases h1c : cmpInv a b with _ | _ | _
  · rw [cmpInv_lt_of_lt_of_le ha hb hc h1c h2]
    simp
  · obtain ⟨hd, ht, hi⟩ := cmpInv_eq_key ha hb h1c
    rw [cmpInv_congr_left hd ht hi]
    exact h2
  · exact absurd h1c h1

/-! ### The insertion sort embedding the sequencer -/

theorem insertInv_perm (x : Invoice) (l : List Invoice) :
    (insertInv x l).Perm (x :: l) := by
  induction l with
  | nil => exact List.Perm.refl _
  | cons y ys ih =>
    unfold insertInv
    by_cases h : cmpInv x y = Ordering.lt
    · rw [if_pos h]
    · rw [if_neg h]
      exact (ih.cons y).trans (List.Perm.swap x y ys)

theorem sortInv_perm (l : List Invoice) : (sortInv l).Perm l := by
  induction l with
  | nil => exact List.Perm.refl _
  | cons x xs ih =>
    show (insertInv x (sortInv xs)).Perm (x :: xs)
    exact (insertInv_perm x (sortInv xs)).trans (ih.cons x)

theorem insertInv_sorted {x : Invoice} {l : List Invoice} (hx : x.createdAt.isSome)
    (hl : ∀ z ∈ l, z.createdAt.isSome)
    (hs : l.Pairwise (fun a b => cmpInv a b ≠ Ordering.gt)) :
    (insertInv x l).Pairwise (fun a b => cmpInv a b ≠ Ordering.gt) := by
  induction l with
  | nil => simp [insertInv]
  | cons y ys ih =>
    rw [List.pairwise_cons] at hs
    obtain ⟨hy, hys⟩ := hs
    have hyT : y.createdAt.isSome := hl y (List.mem_cons_self y ys)
    have hysT : ∀ z ∈ ys, z.createdAt.isSome := fun z hz => hl z (List.mem_cons_of_mem y hz)
    unfold insertInv
    by_cases h : cmpInv x y = Ordering.lt
    · rw [if_pos h, List.pairwise_cons]
      constructor
      · intro z hz
        rcases List.mem_cons.mp hz with rfl | hzys
        · rw [h]; simp
        · have hzT : z.createdAt.isSome := hysT z hzys
          rw [cmpInv_lt_of_lt_of_le hx hyT hzT h (hy z hzys)]
          simp
      · rw [List.pairwise_cons]
        exact ⟨hy, hys⟩
    · rw [if_neg h, List.pairwise_cons]
      constructor
      · intro z hz
        rcases List.mem_cons.mp ((insertInv_perm x ys).mem_iff.mp hz) with rfl | h1
        · exact cmpInv_not_gt_of_not_lt h
        · exact hy z h1
      · exact ih hysT hys

theorem sortInv_sorted {l : List Invoice} (hl : ∀ x ∈ l, x.createdAt.isSome) :
    (sortInv l).Pairwise (fun a b => cmpInv a b ≠ Ordering.gt) := by
  induction l with
  | nil => simp [sortInv]
  | cons x xs ih =>
    show (insertInv x (sortInv xs)).Pairwise _
    have hxs : ∀ z ∈ xs, z.createdAt.isSome := fun z hz => hl z (List.mem_cons_of_mem x hz)
    exact insertInv_sorted (hl x (List.mem_cons_self x xs))
      (fun z hz => hxs z ((sortInv_perm xs).mem_iff.mp hz)) (ih hxs)

/-- Two sorted lists that are permutations of each other coincide, provided
ids are unambiguous within them. -/
theorem sorted_perm_eq {l1 l2 : List Invoice} (hp : l1.Perm l2)
    (h1 : l1.Pairwise (fun a b => cmpInv a b ≠ Ordering.gt))
    (h2 : l2.Pairwise (fun a b => cmpInv a b ≠ Ordering.gt))
    (hinj : ∀ a ∈ l1, ∀ b ∈ l1, a.id = b.id → a = b) : l1 = l2 := by
  induction l1 generalizing l2 with
  | nil => exact hp.nil_eq
  | cons a t1 ih =>
    cases l2 with
    | nil => exact absurd hp.symm.nil_eq (by simp)
    | cons b t2 =>
      by_cases hab : a = b
      · subst hab
        have hp' := hp.cons_inv
        rw [ih hp' (List.pairwise_cons.mp h1).2 (List.pairwise_cons.mp h2).2
          (fun x hx y hy hxy =>
            hinj x (List.mem_cons_of_mem a hx) y (List.mem_cons_of_mem a hy) hxy)]
      · exfalso
        have hb1 : b ∈ a :: t1 := hp.mem_iff.mpr (List.mem_cons_self b t2)
        have ha2 : a ∈ b :: t2 := hp.mem_iff.mp (List.mem_cons_self a t1)
        have hb1' : b ∈ t1 := by
          rcases List.mem_cons.mp hb1 with h | h
          · exact absurd h.symm hab
          · exact h
        have ha2' : a ∈ t2 := by
          rcases List.mem_cons.mp ha2 with h | h
          · exact absurd h hab
          · exact h
        have rab : cmpInv a b ≠ Ordering.gt := (List.pairwise_cons.mp h1).1 b hb1'
        have rba : cmpInv b a ≠ Ordering.gt := (List.pairwise_cons.mp h2).1 a ha2'
        have heq : cmpInv a b = Ordering.eq := cmpInv_eq_of_le_le rab rba
        exact hab (hinj a (List.mem_cons_self a t1) b (List.mem_cons_of_mem a hb1')
          (cmpInv_eq_parts heq).2)

/-! ### Claim C1 -/

/-- C1 counterexample input: a purchase with the earlier timestamp but the
lexicographically larger id. -/
def c1P1 : Invoice :=
  ⟨"z", "2024-01-01", some "T1", "PURCHASE", "p", 10, 100, 0, 0, 1000, 1000, 0, 0, []⟩

/-- C1 counterexample input: a purchase with the later timestamp but the
lexicographically smaller id. -/
def c1P2 : Invoice :=
  ⟨"a", "2024-01-01", some "T2", "PURCHASE", "p", 10, 200, 0, 0, 2000, 2000, 0, 0, []⟩

/-- C1 counterexample input: a sale without `createdAt` whose id lies between
the two purchase ids, which makes the comparator cyclic. -/
def c1S : Invoice :=
  ⟨"m", "2024-01-01", none, "SALE", "c", 10, 300, 0, 0, 3000, 3000, 0, 0, []⟩

/-- Claim C1 is false as stated: the sequencer comparator skips the
`createdAt` level when one side lacks a timestamp, which makes it cyclic
(P1 before P2 by timestamp, P2 before S and S before P1 by id), so two
permutations of the same three-transaction set sort differently and the
replay assigns the sale a different `cogs` and produces a different final
lot state. -/
theorem C1_counterexample :
    [c1P1, c1S, c1P2].Perm [c1P2, c1S, c1P1] ∧
    (recalculateAllData [c1P1, c1S, c1P2]).updatedInvoices.map Invoice.cogs ≠
      (recalculateAllData [c1P2, c1S, c1P1]).updatedInvoices.map Invoice.cogs ∧
    (recalculateAllData [c1P1, c1S, c1P2]).updatedInventory.map InventoryBatch.id ≠
      (recalculateAllData [c1P2, c1S, c1P1]).updatedInventory.map InventoryBatch.id := by
  have hdd : cmpStr "2024-01-01" "2024-01-01" = Ordering.eq := by decide
  have ht12 : cmpStr "T1" "T2" = Ordering.lt := by decide
  have ht21 : cmpStr "T2" "T1" = Ordering.gt := by decide
  have hzm : cmpStr "z" "m" = Ordering.gt := by decide
  have hmz : cmpStr "m" "z" = Ordering.lt := by decide
  have hza : cmpStr "z" "a" = Ordering.gt := by decide
  have haz : cmpStr "a" "z" = Ordering.lt := by decide
  have hma : cmpStr "m" "a" = Ordering.gt := by decide
  have ham : cmpStr "a" "m" = Ordering.lt := by decide
  have hsp : ("SALE" : String) ≠ "PURCHASE" := by decide
  have e1 : (recalculateAllData [c1P1, c1S, c1P2]).updatedInvoices.map Invoice.cogs
      = [0, 0, 1000] := by
    norm_num [recalculateAllData, sortInv, insertInv, cmpInv, hdd, ht12, ht21, hzm, hmz,
      hza, haz, hma, ham, hsp, replayStep, processSale, consumeLots, initState, eps,
      c1P1, c1P2, c1S]
  have e2 : (recalculateAllData [c1P2, c1S, c1P1]).updatedInvoices.map Invoice.cogs
      = [0, 2000, 0] := by
    norm_num [recalculateAllData, sortInv, insertInv, cmpInv, hdd, ht12, ht21, hzm, hmz,
      hza, haz, hma, ham, hsp, replayStep, processSale, consumeLots, initState, eps,
      c1P1, c1P2, c1S]
  have e3 : (recalculateAllData [c1P1, c1S, c1P2]).updatedInventory.map InventoryBatch.id
      = ["z", "a"] := by
    norm_num [recalculateAllData, sortInv, insertInv, cmpInv, hdd, ht12, ht21, hzm, hmz,
      hza, haz, hma, ham, hsp, replayStep, processSale, consumeLots, initState, eps,
      c1P1, c1P2, c1S]
  have e4 : (recalculateAllData [c1P2, c1S, c1P1]).updatedInventory.map InventoryBatch.id
      = ["a", "z"] := by
    norm_num [recalculateAllData, sortInv, insertInv, cmpInv, hdd, ht12, ht21, hzm, hmz,
      hza, haz, hma, ham, hsp, replayStep, processSale, consumeLots, initState, eps,
      c1P1, c1P2, c1S]
  refine ⟨?_, ?_, ?_⟩
  · exact ((List.Perm.swap c1S c1P1 [c1P2]).trans
      ((List.Perm.swap c1P2 c1P1 []).cons c1S)).trans (List.Perm.swap c1P2 c1S [c1P1])
  · rw [e1, e2]
    intro h
    simp only [List.cons.injEq] at h
    exact absurd h.2.1 (by norm_num)
  · rw [e3, e4]
    intro h
    simp only [List.cons.injEq] at h
    exact absurd h.1 (by decide)

/-- Claim C1 (amended): the pipeline is permutation-independent on every
transaction set in which all transactions carry a `createdAt` timestamp and
ids are unambiguous; with mixed `createdAt` presence the comparator can be
cyclic and the sorted order depends on the input order (see the
counterexample). -/
theorem C1_determinism_timed (l1 l2 : List Invoice)
    (htimed : ∀ x ∈ l1, x.createdAt.isSome)
    (hinj : ∀ a ∈ l1, ∀ b ∈ l1, a.id = b.id → a = b)
    (hp : l1.Perm l2) :
    recalculateAllData l1 = recalculateAllData l2 := by
  have hsort : sortInv l1 = sortInv l2 :=
    sorted_perm_eq ((sortInv_perm l1).trans (hp.trans (sortInv_perm l2).symm))
      (sortInv_sorted htimed)
      (sortInv_sorted (fun x hx => htimed x (hp.mem_iff.mpr hx)))
      (fun a ha b hb => hinj a ((sortInv_perm l1).mem_iff.mp ha) b
        ((sortInv_perm l1).mem_iff.mp hb))
  unfold recalculateAllData
  rw [hsort]

/-- A fully timestamped two-element witness input for C1. -/
def c1W1 : Invoice :=
  ⟨"i1", "2024-01-01", some "T1", "PURCHASE", "p", 1, 1, 0, 0, 0, 0, 0, 0, []⟩

/-- A fully timestamped two-element witness input for C1. -/
def c1W2 : Invoice :=
  ⟨"i2", "2024-01-02", some "T2", "SALE", "c", 1, 1, 0, 0, 0, 0, 0, 0, []⟩

/-- Witness instantiating `C1_determinism_timed` on a concrete pair. -/
theorem C1_determinism_timed_witness :
    recalculateAllData [c1W1, c1W2] = recalculateAllData [c1W2, c1W1] := by
  refine C1_determinism_timed [c1W1, c1W2] [c1W2, c1W1] ?_ ?_ ?_
  · intro x hx
    rcases List.mem_cons.mp hx with rfl | hx
    · rfl
    · rcases List.mem_cons.mp hx with rfl | hx
      · rfl
      · exact absurd hx (List.not_mem_nil x)
  · intro a ha b hb hid
    have hne : ("i1" : String) ≠ "i2" := by decide
    rcases List.mem_cons.mp ha with rfl | ha <;> rcases List.mem_cons.mp hb with rfl | hb
    · rfl
    · rcases List.mem_cons.mp hb with rfl | hb
      · exact absurd hid hne
      · exact absurd hb (List.not_mem_nil b)
    · rcases List.mem_cons.mp ha with rfl | ha
      · exact absurd hid hne.symm
      · exact absurd ha (List.not_mem_nil a)
    · rcases List.mem_cons.mp ha with rfl | ha
      · rcases List.mem_cons.mp hb with rfl | hb
        · rfl
        · exact absurd hb (List.not_mem_nil b)
      · exact absurd ha (List.not_mem_nil a)
  · exact List.Perm.swap c1W2 c1W1 []

/-! ### Claim C5 -/

/-- C5 example: purchase of 100g at 5000 per gram on day 1. -/
def c5P1 : Invoice :=
  ⟨"p1", "2024-01-01", some "T1", "PURCHASE", "s", 100, 5000, 0, 0, 500000, 500000, 0, 0, []⟩

/-- C5 example: purchase of 50g at 5200 per gram on day 2. -/
def c5P2 : Invoice :=
  ⟨"p2", "2024-01-02", some "T2", "PURCHASE", "s", 50, 5200, 0, 0, 260000, 260000, 0, 0, []⟩

/-- C5 example: sale of 120g on day 3. -/
def c5S : Invoice :=
  ⟨"s1", "2024-01-03", some "T3", "SALE", "c", 120, 6000, 0, 0, 720000, 720000, 0, 0, []⟩

/-- Claim C5: on the worked example the sale consumes all 100g of lot 1
(chunk cost 500000) and 20g of lot 2 (chunk cost 104000), its cogs is
604000, lot 1 is closed with remainder 0 (stamped with the sale's date) and
lot 2 retains 30g. -/
theorem C5_example :
    (recalculateAllData [c5P1, c5P2, c5S]).updatedInvoices.map Invoice.cogs
      = [0, 0, 604000] ∧
    (recalculateAllData [c5P1, c5P2, c5S]).updatedInvoices.map Invoice.fifoLog
      = [[], [],
          [LogLine.consumed 100 "2024-01-01" 5000, LogLine.consumed 20 "2024-01-02" 5200]] ∧
    (100 : ℚ) * 5000 = 500000 ∧ (20 : ℚ) * 5200 = 104000 ∧
    (recalculateAllData [c5P1, c5P2, c5S]).updatedInventory.map
        (fun b => (b.remainingQuantity, b.closedDate))
      = [(0, some "2024-01-03"), (30, none)] := by
  have h12 : cmpStr "2024-01-01" "2024-01-02" = Ordering.lt := by decide
  have h23 : cmpStr "2024-01-02" "2024-01-03" = Ordering.lt := by decide
  have h13 : cmpStr "2024-01-01" "2024-01-03" = Ordering.lt := by decide
  have hsp : ("SALE" : String) ≠ "PURCHASE" := by decide
  refine ⟨?_, ?_, by norm_num, by norm_num, ?_⟩ <;>
    norm_num [recalculateAllData, sortInv, insertInv, cmpInv, h12, h23, h13, hsp,
      replayStep, processSale, consumeLots, initState, eps, c5P1, c5P2, c5S]

/-! ### Claim C2 -/

/-- Claim C2: with lot A ahead of lot B (and anything behind B), both above
the epsilon, a sale whose whole quantity fits into A's remainder draws only
from A: one consumption line on A, cogs `q * A.unitCost`, zero residual need,
and the entire tail starting at B — in particular B's `remainingQuantity` —
unchanged. -/
theorem C2_fifo_exclusive (d : String) (A B : InventoryBatch) (rest : List InventoryBatch)
    (q : ℚ) (hq : 0 < q) (hA : eps < A.remainingQuantity) (hB : eps < B.remainingQuantity)
    (hfit : q ≤ A.remainingQuantity) :
    (consumeLots d (A :: B :: rest) q).batches.tail = B :: rest ∧
    (consumeLots d (A :: B :: rest) q).need = 0 ∧
    (consumeLots d (A :: B :: rest) q).cogs = q * A.costPerGram ∧
    (consumeLots d (A :: B :: rest) q).log = [LogLine.consumed q A.date A.costPerGram] := by
  have hn : ¬ (q ≤ 0) := not_le.mpr hq
  have hmin : min A.remainingQuantity q = q := min_eq_right hfit
  refine ⟨?_, ?_, ?_, ?_⟩ <;>
    simp [consumeLots, hn, hA, hmin, sub_self, add_zero]

/-- C2 witness lot A. -/
def c2A : InventoryBatch := ⟨"a", "2024-01-01", 10, 10, 100, none⟩

/-- C2 witness lot B. -/
def c2B : InventoryBatch := ⟨"b", "2024-01-02", 5, 5, 200, none⟩

/-- Witness instantiating `C2_fifo_exclusive` on concrete lots. -/
theorem C2_fifo_exclusive_witness :
    (consumeLots "2024-01-03" [c2A, c2B] 7).batches.tail = [c2B] ∧
    (consumeLots "2024-01-03" [c2A, c2B] 7).need = 0 ∧
    (consumeLots "2024-01-03" [c2A, c2B] 7).cogs = 7 * c2A.costPerGram ∧
    (consumeLots "2024-01-03" [c2A, c2B] 7).log =
      [LogLine.consumed 7 c2A.date c2A.costPerGram] :=
  C2_fifo_exclusive "2024-01-03" c2A c2B [] 7 (by norm_num)
    (by norm_num [c2A, eps]) (by norm_num [c2B, eps]) (by norm_num [c2A])

/-! ### Claim C3 -/

/-- C3 counterexample lot 1: 10g at cost 100. -/
def c3L1 : InventoryBatch := ⟨"l1", "2024-01-01", 10, 10, 100, none⟩

/-- C3 counterexample lot 2: 5g at cost 200. -/
def c3L2 : InventoryBatch := ⟨"l2", "2024-01-02", 5, 5, 200, none⟩

/-- Claim C3 is false as stated: after draining lot 1 the outstanding need
`1/20000` is positive but below the `1e-4` epsilon, yet the walk does not
stop — it consumes the residue from lot 2, whose remainder changes.  The
loop's stop check is `remainingToSell <= 0`, a direct zero comparison, not
an epsilon test. -/
theorem C3_counterexample :
    0 < (10 + 1 / 20000 : ℚ) - 10 ∧ (10 + 1 / 20000 : ℚ) - 10 ≤ eps ∧
    (consumeLots "2024-01-03" [c3L1, c3L2] (10 + 1 / 20000)).batches.map
      InventoryBatch.remainingQuantity = [0, 5 - 1 / 20000] ∧
    (5 - 1 / 20000 : ℚ) ≠ 5 := by
  refine ⟨by norm_num, by norm_num [eps], ?_, by norm_num⟩
  norm_num [consumeLots, eps, c3L1, c3L2, min_def]

/-- Claim C3 (amended): the walk stops exactly when the outstanding need
drops to zero or below (the source's `remainingToSell <= 0` break — a direct
zero comparison) or the lots run out; while the need is still positive, even
when it is at or below the `1e-4` epsilon, any lot holding more than the
epsilon is consumed further. -/
theorem C3_stop_condition :
    (∀ (d : String) (bs : List InventoryBatch) (need : ℚ), need ≤ 0 →
      consumeLots d bs need = ⟨bs, need, 0, []⟩) ∧
    (∀ (d : String) (b : InventoryBatch) (bs : List InventoryBatch) (need : ℚ),
      0 < need → eps < b.remainingQuantity →
      (consumeLots d (b :: bs) need).log =
        LogLine.consumed (min b.remainingQuantity need) b.date b.costPerGram ::
          (consumeLots d bs (need - min b.remainingQuantity need)).log) := by
  constructor
  · intro d bs need h
    cases bs with
    | nil => rfl
    | cons b bs => simp [consumeLots, h]
  · intro d b bs need h1 h2
    simp [consumeLots, not_le.mpr h1, h2]

/-- Witness instantiating both parts of `C3_stop_condition` on concrete
values. -/
theorem C3_stop_condition_witness :
    consumeLots "x" [c3L1] (-1) = ⟨[c3L1], -1, 0, []⟩ ∧
    (consumeLots "x" [c3L1] 5).log =
      LogLine.consumed (min c3L1.remainingQuantity 5) c3L1.date c3L1.costPerGram ::
        (consumeLots "x" [] (5 - min c3L1.remainingQuantity 5)).log :=
  ⟨C3_stop_condition.1 "x" [c3L1] (-1) (by norm_num),
   C3_stop_condition.2 "x" c3L1 [] 5 (by norm_num) (by norm_num [c3L1, eps])⟩

/-! ### Claim C4 -/

/-- Each replay iteration appends exactly one processed invoice whose
caller-supplied fields equal those of the input transaction. -/
theorem replay_processed_baseFields (xs : List Invoice) (st : EngineState) :
    ((xs.foldl replayStep st).processed).map baseFields
      = st.processed.map baseFields ++ xs.map baseFields := by
  induction xs generalizing st with
  | nil => simp
  | cons x xs ih =>
    rw [List.foldl_cons, ih]
    have hstep : (replayStep st x).processed.map baseFields
        = st.processed.map baseFields ++ [baseFields x] := by
      unfold replayStep
      by_cases h : x.type = "PURCHASE"
      · simp [h, baseFields]
      · simp [h, baseFields, processSale]
    rw [hstep]
    simp

/-- The engine never drops a record: the processed list has the input's
length. -/
theorem recalc_length (l : List Invoice) :
    (recalculateAllData l).updatedInvoices.length = l.length := by
  have h := congrArg List.length (replay_processed_baseFields (sortInv l) initState)
  simp only [List.length_map, List.length_append, initState, List.map_nil,
    List.length_nil, Nat.zero_add] at h
  simp only [recalculateAllData, initState]
  rw [h]
  exact (sortInv_perm l).length_eq

/-- A transaction of unknown kind used to exercise the missing ingestion
validation. -/
def c4Bad : Invoice :=
  ⟨"r1", "2024-01-05", none, "REFUND", "x", 5, 100, 0, 0, 0, 0, 0, 0, []⟩

/-- Claim C4 is false as stated: a record with the unknown kind `REFUND`
is not rejected anywhere before or inside the engine — it flows through the
sequencer into the replay, where the engine silently processes it through
the SALE branch (here producing a stockout warning and a profit figure). -/
theorem C4_counterexample :
    (recalculateAllData [c4Bad]).updatedInvoices =
      [{ c4Bad with cogs := 0, profit := 500, fifoLog := [LogLine.noTimestamp, LogLine.stockout 5] }] := by
  have h : ("REFUND" : String) ≠ "PURCHASE" := by decide
  norm_num [recalculateAllData, sortInv, insertInv, replayStep, processSale,
    consumeLots, initState, eps, c4Bad, h]

/-- Claim C4 (amended): no malformed-transaction rejection exists — the
engine processes every input record (the output invoice list always has the
input's length), and a record whose kind is not PURCHASE, whatever it is, is
silently run through the SALE branch of the replay. -/
theorem C4_no_rejection :
    (∀ l : List Invoice, (recalculateAllData l).updatedInvoices.length = l.length) ∧
    (∀ inv : Invoice, inv.type ≠ "PURCHASE" → inv.createdAt = none →
      eps < inv.quantityGrams →
      (recalculateAllData [inv]).updatedInvoices.map Invoice.fifoLog =
        [[LogLine.noTimestamp, LogLine.stockout inv.quantityGrams]]) := by
  constructor
  · exact recalc_length
  · intro inv h1 h2 h3
    have hq : ¬ (inv.quantityGrams ≤ 0) :=
      not_le.mpr (lt_trans (by norm_num [eps]) h3)
    simp [recalculateAllData, sortInv, insertInv, replayStep, processSale,
      consumeLots, initState, h1, h2, h3, hq]

/-- Witness instantiating both parts of `C4_no_rejection` on the concrete
`REFUND` record. -/
theorem C4_no_rejection_witness :
    (recalculateAllData [c4Bad]).updatedInvoices.length = [c4Bad].length ∧
    (recalculateAllData [c4Bad]).updatedInvoices.map Invoice.fifoLog =
      [[LogLine.noTimestamp, LogLine.stockout c4Bad.quantityGrams]] :=
  ⟨C4_no_rejection.1 [c4Bad],
   C4_no_rejection.2 c4Bad (by decide) rfl (by norm_num [c4Bad, eps])⟩

/-! ### Claim C10 -/

/-- Claim C10: the engine does not alter its input transactions — it sorts a
copy and emits freshly built records, so the multiset of caller-supplied
fields of the output equals that of the input: nothing is dropped,
duplicated, or changed field-for-field (in the pure embedding the input list
itself is immutable by construction; this theorem states the observable
content of the frame condition). -/
theorem C10_no_input_mutation (l : List Invoice) :
    ((recalculateAllData l).updatedInvoices.map baseFields).Perm (l.map baseFields) := by
  have h := replay_processed_baseFields (sortInv l) initState
  simp only [initState, List.map_nil, List.nil_append] at h
  simp only [recalculateAllData, initState]
  rw [h]
  exact (sortInv_perm l).map baseFields

/-! ### Claim C7 -/

/-- The COGS accumulated by the lot walk equals the sum of
`chunk * unitCost` over the consumption lines it logged. -/
theorem consumeLots_cogs_logCost (d : String) (bs : List InventoryBatch) (need : ℚ) :
    (consumeLots d bs need).cogs = logCost (consumeLots d bs need).log := by
  induction bs generalizing need with
  | nil => simp [consumeLots, logCost]
  | cons b bs ih =>
    by_cases h0 : need ≤ 0
    · simp [consumeLots, h0, logCost]
    · by_cases h1 : eps < b.remainingQuantity
      · simp only [consumeLots, if_neg h0, if_pos h1, logCost, List.map_cons, List.sum_cons]
        rw [← logCost, ← ih (need - min b.remainingQuantity need)]
      · simp only [consumeLots, if_neg h0, if_neg h1]
        exact ih need

/-- The total quantity on the consumption lines of one lot walk equals the
drop of the outstanding need. -/
theorem consumeLots_logQty (d : String) (bs : List InventoryBatch) (need : ℚ) :
    logQty (consumeLots d bs need).log = need - (consumeLots d bs need).need := by
  induction bs generalizing need with
  | nil => simp [consumeLots, logQty]
  | cons b bs ih =>
    by_cases h0 : need ≤ 0
    · simp [consumeLots, h0, logQty]
    · by_cases h1 : eps < b.remainingQuantity
      · simp only [consumeLots, if_neg h0, if_pos h1, logQty, List.map_cons, List.sum_cons]
        rw [← logQty, ih (need - min b.remainingQuantity need)]
        ring_nf
      · simp only [consumeLots, if_neg h0, if_neg h1]
        exact ih need

/-- The lot walk itself never logs a stockout line. -/
theorem consumeLots_stockoutSum (d : String) (bs : List InventoryBatch) (need : ℚ) :
    stockoutSum (consumeLots d bs need).log = 0 := by
  induction bs generalizing need with
  | nil => simp [consumeLots, stockoutSum]
  | cons b bs ih =>
    by_cases h0 : need ≤ 0
    · simp [consumeLots, h0, stockoutSum]
    · by_cases h1 : eps < b.remainingQuantity
      · simp only [consumeLots, if_neg h0, if_pos h1, stockoutSum, List.map_cons,
          List.sum_cons]
        rw [← stockoutSum, ih (need - min b.remainingQuantity need)]
        ring_nf
      · simp only [consumeLots, if_neg h0, if_neg h1]
        exact ih need

/-- Claim C7: when the outstanding need is still above the epsilon after the
lot walk, the SALE branch does not fail — it appends a stockout line naming
exactly the unmet quantity after the consumption lines, and the sale's cogs
is the walk's accumulated sum of `chunk * unitCost` over precisely the
quantity actually consumed (`quantity - unmet`). -/
theorem C7_stockout (inv : Invoice) (bs : List InventoryBatch)
    (h : eps < (consumeLots inv.date bs inv.quantityGrams).need) :
    (processSale inv bs).1.fifoLog =
      (if inv.createdAt.isNone then [LogLine.noTimestamp] else []) ++
        (consumeLots inv.date bs inv.quantityGrams).log ++
        [LogLine.stockout (consumeLots inv.date bs inv.quantityGrams).need] ∧
    (processSale inv bs).1.cogs = (consumeLots inv.date bs inv.quantityGrams).cogs ∧
    (processSale inv bs).1.cogs = logCost (consumeLots inv.date bs inv.quantityGrams).log ∧
    logQty (consumeLots inv.date bs inv.quantityGrams).log =
      inv.quantityGrams - (consumeLots inv.date bs inv.quantityGrams).need := by
  refine ⟨?_, ?_, ?_, ?_⟩
  · simp [processSale, h]
  · simp [processSale]
  · simp only [processSale]
    exact consumeLots_cogs_logCost inv.date bs inv.quantityGrams
  · exact consumeLots_logQty inv.date bs inv.quantityGrams

/-- C7 witness lot: 10g bought on day 1. -/
def c7Lot : InventoryBatch := ⟨"p", "2024-01-01", 10, 10, 5000, none⟩

/-- C7 witness sale: 15g sold on day 2. -/
def c7S : Invoice :=
  ⟨"s7", "2024-01-02", some "T7", "SALE", "c", 15, 6000, 0, 0, 90000, 90000, 0, 0, []⟩

/-- Witness instantiating `C7_stockout` on the spec's stockout example
(purchase 10g, sale 15g: 5g unmet). -/
theorem C7_stockout_witness :
    (processSale c7S [c7Lot]).1.fifoLog =
      (if c7S.createdAt.isNone then [LogLine.noTimestamp] else []) ++
        (consumeLots c7S.date [c7Lot] c7S.quantityGrams).log ++
        [LogLine.stockout (consumeLots c7S.date [c7Lot] c7S.quantityGrams).need] ∧
    (processSale c7S [c7Lot]).1.cogs = (consumeLots c7S.date [c7Lot] c7S.quantityGrams).cogs ∧
    (processSale c7S [c7Lot]).1.cogs =
      logCost (consumeLots c7S.date [c7Lot] c7S.quantityGrams).log ∧
    logQty (consumeLots c7S.date [c7Lot] c7S.quantityGrams).log =
      c7S.quantityGrams - (consumeLots c7S.date [c7Lot] c7S.quantityGrams).need :=
  C7_stockout c7S [c7Lot] (by norm_num [consumeLots, c7S, c7Lot, eps, min_def])

/-! ### Inventory invariants and quantity accounting for the lot walk -/

theorem drained_cons (b : InventoryBatch) (bs : List InventoryBatch) :
    drained (b :: bs) = (b.originalQuantity - b.remainingQuantity) + drained bs := by
  simp [drained]

theorem closedCount_cons (b : InventoryBatch) (bs : List InventoryBatch) :
    closedCount (b :: bs) = (if b.closedDate.isSome then 1 else 0) + closedCount bs := by
  by_cases h : b.closedDate.isSome
  · simp [closedCount, List.filter_cons, h, Nat.add_comm]
  · simp [closedCount, List.filter_cons, h]

/-- `eps` is positive. -/
theorem eps_pos : (0 : ℚ) < eps := by norm_num [eps]

/-- Master lemma about one lot walk: the lot invariants
`0 ≤ remaining ≤ original` and "closed implies empty" are preserved, the
outstanding need never increases (and never drops under zero), closed lots
only accumulate, and the total drained quantity moves by the consumed
quantity plus at most `eps` per newly closed lot. -/
theorem consumeLots_invariants (d : String) (bs : List InventoryBatch) (need : ℚ)
    (h1 : ∀ b ∈ bs, 0 ≤ b.remainingQuantity ∧ b.remainingQuantity ≤ b.originalQuantity)
    (h2 : ∀ b ∈ bs, b.closedDate.isSome = true → b.remainingQuantity = 0) :
    (∀ b ∈ (consumeLots d bs need).batches,
      0 ≤ b.remainingQuantity ∧ b.remainingQuantity ≤ b.originalQuantity) ∧
    (∀ b ∈ (consumeLots d bs need).batches,
      b.closedDate.isSome = true → b.remainingQuantity = 0) ∧
    (consumeLots d bs need).need ≤ need ∧
    (0 ≤ need → 0 ≤ (consumeLots d bs need).need) ∧
    closedCount bs ≤ closedCount (consumeLots d bs need).batches ∧
    drained bs + (need - (consumeLots d bs need).need) ≤
      drained (consumeLots d bs need).batches ∧
    drained (consumeLots d bs need).batches + eps * (closedCount bs : ℚ) ≤
      drained bs + (need - (consumeLots d bs need).need) +
        eps * (closedCount (consumeLots d bs need).batches : ℚ) := by
  induction bs generalizing need with
  | nil =>
    refine ⟨fun b hb => absurd hb (by simp [consumeLots]), fun b hb => absurd hb (by simp [consumeLots]), ?_, ?_, ?_, ?_, ?_⟩ <;>
      simp [consumeLots]
  | cons b bs ih =>
    have hb1 := h1 b (List.mem_cons_self b bs)
    have h1' : ∀ x ∈ bs, 0 ≤ x.remainingQuantity ∧ x.remainingQuantity ≤ x.originalQuantity :=
      fun x hx => h1 x (List.mem_cons_of_mem b hx)
    have h2' : ∀ x ∈ bs, x.closedDate.isSome = true → x.remainingQuantity = 0 :=
      fun x hx => h2 x (List.mem_cons_of_mem b hx)
    by_cases h0 : need ≤ 0
    · have hunfold : consumeLots d (b :: bs) need = ⟨b :: bs, need, 0, []⟩ := by
        simp [consumeLots, h0]
      rw [hunfold]
      exact ⟨h1, h2, le_refl _, fun h => h, le_refl _, by simp, by simp⟩
    · by_cases hc : eps < b.remainingQuantity
      · have hbnotclosed : b.closedDate.isSome = false := by
          cases hcl : b.closedDate.isSome with
          | false => rfl
          | true =>
            exfalso
            have := h2 b (List.mem_cons_self b bs) hcl
            rw [this] at hc
            exact absurd hc (not_lt.mpr (le_of_lt eps_pos))
        have htle_rem : min b.remainingQuantity need ≤ b.remainingQuantity := min_le_left _ _
        have htle_need : min b.remainingQuantity need ≤ need := min_le_right _ _
        have h0' : (0 : ℚ) < need := not_le.mp h0
        have htpos : 0 < min b.remainingQuantity need :=
          lt_min (lt_trans eps_pos hc) h0'
        obtain ⟨ih1, ih2, ih3, ih4, ih5, ih6, ih7⟩ :=
          ih (need - min b.remainingQuantity need) h1' h2'
        have hunfold : consumeLots d (b :: bs) need =
            ⟨(if b.remainingQuantity - min b.remainingQuantity need < eps then
                { b with remainingQuantity := 0, closedDate := some d }
              else { b with remainingQuantity :=
                b.remainingQuantity - min b.remainingQuantity need }) ::
              (consumeLots d bs (need - min b.remainingQuantity need)).batches,
             (consumeLots d bs (need - min b.remainingQuantity need)).need,
             min b.remainingQuantity need * b.costPerGram +
               (consumeLots d bs (need - min b.remainingQuantity need)).cogs,
             LogLine.consumed (min b.remainingQuantity need) b.date b.costPerGram ::
               (consumeLots d bs (need - min b.remainingQuantity need)).log⟩ := by
          simp [consumeLots, h0, hc]
        rw [hunfold]
        by_cases hsnap : b.remainingQuantity - min b.remainingQuantity need < eps
        · rw [if_pos hsnap]
          refine ⟨?_, ?_, ?_, ?_, ?_, ?_, ?_⟩
          · intro x hx
            rcases List.mem_cons.mp hx with rfl | hx
            · exact ⟨le_refl 0, le_trans hb1.1 hb1.2⟩
            · exact ih1 x hx
          · intro x hx
            rcases List.mem_cons.mp hx with rfl | hx
            · intro _; rfl
            · exact ih2 x hx
          · exact le_trans ih3 (by linarith)
          · intro _
            exact ih4 (by linarith)
          · rw [closedCount_cons, closedCount_cons, hbnotclosed]
            norm_num
            omega
          · rw [drained_cons, drained_cons]
            simp only
            linarith
          · rw [drained_cons, drained_cons, closedCount_cons, closedCount_cons, hbnotclosed]
            norm_num
            push_cast
            linarith
        · rw [if_neg hsnap]
          have hge : eps ≤ b.remainingQuantity - min b.remainingQuantity need :=
            not_lt.mp hsnap
          refine ⟨?_, ?_, ?_, ?_, ?_, ?_, ?_⟩
          · intro x hx
            rcases List.mem_cons.mp hx with rfl | hx
            · constructor
              · simp only
                linarith
              · simp only
                linarith [hb1.2]
            · exact ih1 x hx
          · intro x hx
            rcases List.mem_cons.mp hx with rfl | hx
            · intro hcl
              exfalso
              simp only at hcl
              rw [hcl] at hbnotclosed
              exact Bool.noConfusion hbnotclosed
            · exact ih2 x hx
          · exact le_trans ih3 (by linarith)
          · intro _
            exact ih4 (by linarith)
          · rw [closedCount_cons, closedCount_cons]
            simp only
            omega
          · rw [drained_cons, drained_cons]
            simp only
            linarith
          · rw [drained_cons, drained_cons, closedCount_cons, closedCount_cons]
            simp only
            push_cast
            linarith
      · have hunfold : consumeLots d (b :: bs) need =
            ⟨b :: (consumeLots d bs need).batches, (consumeLots d bs need).need,
             (consumeLots d bs need).cogs, (consumeLots d bs need).log⟩ := by
          simp [consumeLots, h0, hc]
        obtain ⟨ih1, ih2, ih3, ih4, ih5, ih6, ih7⟩ := ih need h1' h2'
        rw [hunfold]
        refine ⟨?_, ?_, ih3, ih4, ?_, ?_, ?_⟩
        · intro x hx
          rcases List.mem_cons.mp hx with rfl | hx
          · exact hb1
          · exact ih1 x hx
        · intro x hx
          rcases List.mem_cons.mp hx with rfl | hx
          · exact h2 x (List.mem_cons_self x bs)
          · exact ih2 x hx
        · rw [closedCount_cons, closedCount_cons]
          omega
        · rw [drained_cons, drained_cons]
          linarith
        · rw [drained_cons, drained_cons, closedCount_cons, closedCount_cons]
          push_cast
          linarith

theorem npQtySum_cons (x : Invoice) (l : List Invoice) :
    npQtySum (x :: l) = (if x.type = "PURCHASE" then 0 else x.quantityGrams) + npQtySum l := by
  simp [npQtySum]

theorem npQtySum_append_one (l : List Invoice) (x : Invoice) :
    npQtySum (l ++ [x]) = npQtySum l + (if x.type = "PURCHASE" then 0 else x.quantityGrams) := by
  simp [npQtySum]

theorem npCount_cons (x : Invoice) (l : List Invoice) :
    npCount (x :: l) = (if x.type = "PURCHASE" then 0 else 1) + npCount l := by
  by_cases h : x.type = "PURCHASE" <;> simp [npCount, List.filter_cons, h, Nat.add_comm]

theorem npCount_append_one (l : List Invoice) (x : Invoice) :
    npCount (l ++ [x]) = npCount l + (if x.type = "PURCHASE" then 0 else 1) := by
  by_cases h : x.type = "PURCHASE" <;> simp [npCount, List.filter_append, List.filter_cons, h]

theorem invStockoutSum_append_one (l : List Invoice) (x : Invoice) :
    invStockoutSum (l ++ [x]) = invStockoutSum l + stockoutSum x.fifoLog := by
  simp [invStockoutSum]

theorem stockoutSum_append (l1 l2 : List LogLine) :
    stockoutSum (l1 ++ l2) = stockoutSum l1 + stockoutSum l2 := by
  simp [stockoutSum]

theorem drained_append_one (l : List InventoryBatch) (x : InventoryBatch) :
    drained (l ++ [x]) = drained l + (x.originalQuantity - x.remainingQuantity) := by
  simp [drained]

theorem closedCount_append_one (l : List InventoryBatch) (x : InventoryBatch) :
    closedCount (l ++ [x]) = closedCount l + (if x.closedDate.isSome then 1 else 0) := by
  by_cases h : x.closedDate.isSome <;>
    simp [closedCount, List.filter_append, List.filter_cons, h]

/-- Master lemma about the replay loop: lot invariants hold at every state it
reaches, the processed list accumulates exactly the input's sale quantities
and sale count, and the drained inventory quantity tracks sold-minus-stockout
within `eps` per sale (below) and `eps` per closed lot (above). -/
theorem replay_invariants (xs : List Invoice) (st : EngineState)
    (hx : ∀ i ∈ xs, 0 < i.quantityGrams)
    (hI1 : ∀ b ∈ st.inventory,
      0 ≤ b.remainingQuantity ∧ b.remainingQuantity ≤ b.originalQuantity)
    (hI2 : ∀ b ∈ st.inventory, b.closedDate.isSome = true → b.remainingQuantity = 0) :
    (∀ b ∈ (xs.foldl replayStep st).inventory,
      0 ≤ b.remainingQuantity ∧ b.remainingQuantity ≤ b.originalQuantity) ∧
    (∀ b ∈ (xs.foldl replayStep st).inventory,
      b.closedDate.isSome = true → b.remainingQuantity = 0) ∧
    npQtySum (xs.foldl replayStep st).processed = npQtySum st.processed + npQtySum xs ∧
    npCount (xs.foldl replayStep st).processed = npCount st.processed + npCount xs ∧
    npQtySum (xs.foldl replayStep st).processed + drained st.inventory +
        invStockoutSum st.processed + eps * (npCount st.processed : ℚ) ≤
      npQtySum st.processed + drained (xs.foldl replayStep st).inventory +
        invStockoutSum (xs.foldl replayStep st).processed +
        eps * (npCount (xs.foldl replayStep st).processed : ℚ) ∧
    drained (xs.foldl replayStep st).inventory +
        invStockoutSum (xs.foldl replayStep st).processed + npQtySum st.processed +
        eps * (closedCount st.inventory : ℚ) ≤
      drained st.inventory + invStockoutSum st.processed +
        npQtySum (xs.foldl replayStep st).processed +
        eps * (closedCount (xs.foldl replayStep st).inventory : ℚ) := by
  induction xs generalizing st with
  | nil =>
    refine ⟨hI1, hI2, ?_, ?_, ?_, ?_⟩ <;> simp [npQtySum, npCount]
  | cons x xs ih =>
    have hx' : ∀ i ∈ xs, 0 < i.quantityGrams := fun i hi => hx i (List.mem_cons_of_mem x hi)
    have hxq : 0 < x.quantityGrams := hx x (List.mem_cons_self x xs)
    simp only [List.foldl_cons]
    by_cases hp : x.type = "PURCHASE"
    · have hproc : (replayStep st x).processed =
          st.processed ++ [{ x with cogs := 0, profit := 0, fifoLog := [] }] := by
        simp [replayStep, hp]
      have hinv : (replayStep st x).inventory =
          st.inventory ++ [⟨x.id, x.date, x.quantityGrams, x.quantityGrams, x.ratePerGram, none⟩] := by
        simp [replayStep, hp]
      have hI1' : ∀ b ∈ (replayStep st x).inventory,
          0 ≤ b.remainingQuantity ∧ b.remainingQuantity ≤ b.originalQuantity := by
        rw [hinv]
        intro b hb
        rcases List.mem_append.mp hb with hb | hb
        · exact hI1 b hb
        · rcases List.mem_singleton.mp hb with rfl
          exact ⟨le_of_lt hxq, le_refl _⟩
      have hI2' : ∀ b ∈ (replayStep st x).inventory,
          b.closedDate.isSome = true → b.remainingQuantity = 0 := by
        rw [hinv]
        intro b hb
        rcases List.mem_append.mp hb with hb | hb
        · exact hI2 b hb
        · rcases List.mem_singleton.mp hb with rfl
          intro hcl
          exact absurd hcl (by simp)
      obtain ⟨j1, j2, j3, j4, j5, j6⟩ := ih (replayStep st x) hx' hI1' hI2'
      have hq1 : npQtySum (replayStep st x).processed = npQtySum st.processed := by
        rw [hproc, npQtySum_append_one]
        simp [hp]
      have hq2 : npCount (replayStep st x).processed = npCount st.processed := by
        rw [hproc, npCount_append_one]
        simp [hp]
      have hq3 : invStockoutSum (replayStep st x).processed = invStockoutSum st.processed := by
        rw [hproc, invStockoutSum_append_one]
        simp [stockoutSum]
      have hq4 : drained (replayStep st x).inventory = drained st.inventory := by
        rw [hinv, drained_append_one]
        simp
      have hq5 : closedCount (replayStep st x).inventory = closedCount st.inventory := by
        rw [hinv, closedCount_append_one]
        simp
      refine ⟨j1, j2, ?_, ?_, ?_, ?_⟩
      · rw [j3, hq1, npQtySum_cons, if_pos hp]
        ring
      · rw [j4, hq2, npCount_cons, if_pos hp]
        omega
      · rw [hq1, hq2, hq3, hq4] at j5
        exact j5
      · rw [hq1, hq3, hq4, hq5] at j6
        exact j6
    · have hproc : (replayStep st x).processed =
          st.processed ++ [(processSale x st.inventory).1] := by
        simp [replayStep, hp]
      have hinv : (replayStep st x).inventory =
          (consumeLots x.date st.inventory x.quantityGrams).batches := by
        simp [replayStep, hp, processSale]
      have htype : (processSale x st.inventory).1.type = x.type := by simp [processSale]
      have hqty : (processSale x st.inventory).1.quantityGrams = x.quantityGrams := by
        simp [processSale]
      have hlog : (processSale x st.inventory).1.fifoLog =
          (if x.createdAt.isNone then [LogLine.noTimestamp] else []) ++
            (consumeLots x.date st.inventory x.quantityGrams).log ++
            (if eps < (consumeLots x.date st.inventory x.quantityGrams).need then
              [LogLine.stockout (consumeLots x.date st.inventory x.quantityGrams).need]
            else []) := by
        simp [processSale]
      obtain ⟨cl1, cl2, cl3, cl4, cl5, cl6, cl7⟩ :=
        consumeLots_invariants x.date st.inventory x.quantityGrams hI1 hI2
      have hI1' : ∀ b ∈ (replayStep st x).inventory,
          0 ≤ b.remainingQuantity ∧ b.remainingQuantity ≤ b.originalQuantity := by
        rw [hinv]; exact cl1
      have hI2' : ∀ b ∈ (replayStep st x).inventory,
          b.closedDate.isSome = true → b.remainingQuantity = 0 := by
        rw [hinv]; exact cl2
      obtain ⟨j1, j2, j3, j4, j5, j6⟩ := ih (replayStep st x) hx' hI1' hI2'
      have hq1 : npQtySum (replayStep st x).processed =
          npQtySum st.processed + x.quantityGrams := by
        rw [hproc, npQtySum_append_one, htype, hqty, if_neg hp]
      have hq2 : npCount (replayStep st x).processed = npCount st.processed + 1 := by
        rw [hproc, npCount_append_one, htype, if_neg hp]
      have hwarnstk : stockoutSum
          (if x.createdAt.isNone then [LogLine.noTimestamp] else []) = 0 := by
        by_cases hcn : x.createdAt.isNone <;> simp [hcn, stockoutSum]
      have hlinestk : stockoutSum
          (if eps < (consumeLots x.date st.inventory x.quantityGrams).need then
            [LogLine.stockout (consumeLots x.date st.inventory x.quantityGrams).need]
          else []) =
          (if eps < (consumeLots x.date st.inventory x.quantityGrams).need then
            (consumeLots x.date st.inventory x.quantityGrams).need else 0) := by
        by_cases hst : eps < (consumeLots x.date st.inventory x.quantityGrams).need <;>
          simp [hst, stockoutSum]
      have hq3 : invStockoutSum (replayStep st x).processed =
          invStockoutSum st.processed +
            (if eps < (consumeLots x.date st.inventory x.quantityGrams).need then
              (consumeLots x.date st.inventory x.quantityGrams).need else 0) := by
        rw [hproc, invStockoutSum_append_one, hlog, stockoutSum_append, stockoutSum_append,
          hwarnstk, hlinestk, consumeLots_stockoutSum]
        ring
      have hq4 : drained (replayStep st x).inventory =
          drained (consumeLots x.date st.inventory x.quantityGrams).batches := by
        rw [hinv]
      have hq5 : closedCount (replayStep st x).inventory =
          closedCount (consumeLots x.date st.inventory x.quantityGrams).batches := by
        rw [hinv]
      have hneed0 : 0 ≤ (consumeLots x.date st.inventory x.quantityGrams).need :=
        cl4 (le_of_lt hxq)
      have hs_le : (if eps < (consumeLots x.date st.inventory x.quantityGrams).need then
            (consumeLots x.date st.inventory x.quantityGrams).need else 0) ≤
          (consumeLots x.date st.inventory x.quantityGrams).need := by
        by_cases hst : eps < (consumeLots x.date st.inventory x.quantityGrams).need <;>
          simp [hst, hneed0]
      have hs_ge : (consumeLots x.date st.inventory x.quantityGrams).need ≤
          (if eps < (consumeLots x.date st.inventory x.quantityGrams).need then
            (consumeLots x.date st.inventory x.quantityGrams).need else 0) + eps := by
        by_cases hst : eps < (consumeLots x.date st.inventory x.quantityGrams).need
        · simp [hst]
          exact le_of_lt eps_pos
        · simp [hst]
          exact not_lt.mp hst
      have hq2Q : (npCount (replayStep st x).processed : ℚ) =
          (npCount st.processed : ℚ) + 1 := by
        rw [hq2]
        push_cast
        ring
      have hcl5Q : (closedCount st.inventory : ℚ) ≤
          (closedCount (consumeLots x.date st.inventory x.quantityGrams).batches : ℚ) := by
        exact_mod_cast cl5
      refine ⟨j1, j2, ?_, ?_, ?_, ?_⟩
      · rw [j3, hq1, npQtySum_cons, if_neg hp]
        ring
      · rw [j4, hq2, npCount_cons, if_neg hp]
        omega
      · rw [hq1, hq2Q, hq3, hq4] at j5
        linarith [j5, cl6, hs_ge]
      · rw [hq1, hq3, hq4, hq5] at j6
        linarith [j6, cl7, hs_le]

/-! ### Claim C6 -/

/-- Claim C6: starting from positive input quantities, every lot at every
prefix of the replay satisfies `0 ≤ remainingQuantity ≤ originalQuantity`
(never negative); and whenever a sale's consumption drops a lot's remainder
strictly below the epsilon, the lot is snapped to exactly 0 and its
`closedDate` stamped with the sale's date. -/
theorem C6_lot_invariant (l : List Invoice) (hq : ∀ i ∈ l, 0 < i.quantityGrams) :
    (∀ n : ℕ, ∀ b ∈ (((sortInv l).take n).foldl replayStep initState).inventory,
      0 ≤ b.remainingQuantity ∧ b.remainingQuantity ≤ b.originalQuantity) ∧
    (∀ (d : String) (b : InventoryBatch) (bs : List InventoryBatch) (need : ℚ),
      0 < need → eps < b.remainingQuantity →
      b.remainingQuantity - min b.remainingQuantity need < eps →
      (consumeLots d (b :: bs) need).batches.head? =
        some { b with remainingQuantity := 0, closedDate := some d }) := by
  constructor
  · intro n
    have hx : ∀ i ∈ (sortInv l).take n, 0 < i.quantityGrams := fun i hi =>
      hq i ((sortInv_perm l).mem_iff.mp (List.take_subset n _ hi))
    exact (replay_invariants _ initState hx (by simp [initState]) (by simp [initState])).1
  · intro d b bs need h1 h2 h3
    simp [consumeLots, not_le.mpr h1, h2, h3]

/-- C6 witness purchase. -/
def c6W : Invoice :=
  ⟨"w6", "2024-01-01", some "T6", "PURCHASE", "p", 2, 10, 0, 0, 20, 20, 0, 0, []⟩

/-- Witness instantiating `C6_lot_invariant` on a concrete input. -/
theorem C6_lot_invariant_witness :
    (∀ n : ℕ, ∀ b ∈ (((sortInv [c6W]).take n).foldl replayStep initState).inventory,
      0 ≤ b.remainingQuantity ∧ b.remainingQuantity ≤ b.originalQuantity) ∧
    (∀ (d : String) (b : InventoryBatch) (bs : List InventoryBatch) (need : ℚ),
      0 < need → eps < b.remainingQuantity →
      b.remainingQuantity - min b.remainingQuantity need < eps →
      (consumeLots d (b :: bs) need).batches.head? =
        some { b with remainingQuantity := 0, closedDate := some d }) :=
  C6_lot_invariant [c6W] (by
    intro i hi
    rcases List.mem_singleton.mp hi with rfl
    norm_num [c6W])

/-! ### Claim C9 -/

theorem saleQtySum_cons (x : Invoice) (l : List Invoice) :
    saleQtySum (x :: l) = (if x.type = "SALE" then x.quantityGrams else 0) + saleQtySum l := by
  simp [saleQtySum]

theorem saleCount_cons (x : Invoice) (l : List Invoice) :
    saleCount (x :: l) = (if x.type = "SALE" then 1 else 0) + saleCount l := by
  by_cases h : x.type = "SALE" <;> simp [saleCount, List.filter_cons, h, Nat.add_comm]

/-- On well-kinded transaction lists the engine's "non purchase" sums are
sale sums. -/
theorem npQtySum_eq_saleQtySum (l : List Invoice)
    (h : ∀ i ∈ l, i.type = "PURCHASE" ∨ i.type = "SALE") : npQtySum l = saleQtySum l := by
  induction l with
  | nil => simp [npQtySum, saleQtySum]
  | cons x xs ih =>
    have ih' := ih (fun i hi => h i (List.mem_cons_of_mem x hi))
    rw [npQtySum_cons, saleQtySum_cons, ih']
    rcases h x (List.mem_cons_self x xs) with hx | hx
    · rw [if_pos hx, if_neg (by rw [hx]; decide)]
    · rw [if_neg (by rw [hx]; decide), if_pos hx]

/-- On well-kinded transaction lists the engine's "non purchase" count is the
sale count. -/
theorem npCount_eq_saleCount (l : List Invoice)
    (h : ∀ i ∈ l, i.type = "PURCHASE" ∨ i.type = "SALE") : npCount l = saleCount l := by
  induction l with
  | nil => simp [npCount, saleCount]
  | cons x xs ih =>
    have ih' := ih (fun i hi => h i (List.mem_cons_of_mem x hi))
    rw [npCount_cons, saleCount_cons, ih']
    rcases h x (List.mem_cons_self x xs) with hx | hx
    · rw [if_pos hx, if_neg (by rw [hx]; decide)]
    · rw [if_neg (by rw [hx]; decide), if_pos hx]

/-- Claim C9: after a replay of positive-quantity, well-kinded transactions,
the total quantity drained from lots equals the total SALE quantity minus the
stockout quantities recorded in the logs, within `eps` per closed lot plus
`eps` per sale. -/
theorem C9_conservation (l : List Invoice)
    (h : ∀ i ∈ l, 0 < i.quantityGrams ∧ (i.type = "PURCHASE" ∨ i.type = "SALE")) :
    |drained (recalculateAllData l).updatedInventory -
        (saleQtySum l - invStockoutSum (recalculateAllData l).updatedInvoices)| ≤
      eps * (closedCount (recalculateAllData l).updatedInventory : ℚ) +
        eps * (saleCount l : ℚ) := by
  obtain ⟨r1, r2, r3, r4, r5, r6⟩ := replay_invariants (sortInv l) initState
    (fun i hi => (h i ((sortInv_perm l).mem_iff.mp hi)).1)
    (by simp [initState]) (by simp [initState])
  have hz1 : npQtySum initState.processed = 0 := by simp [initState, npQtySum]
  have hz2 : npCount initState.processed = 0 := by simp [initState, npCount]
  have hz3 : invStockoutSum initState.processed = 0 := by simp [initState, invStockoutSum]
  have hz4 : drained initState.inventory = 0 := by simp [initState, drained]
  have hz5 : closedCount initState.inventory = 0 := by simp [initState, closedCount]
  rw [hz1, hz2, hz3, hz4] at r5
  rw [hz1, hz3, hz4, hz5] at r6
  rw [hz1] at r3
  rw [hz2] at r4
  have hR1 : (recalculateAllData l).updatedInventory =
      ((sortInv l).foldl replayStep initState).inventory := by
    simp [recalculateAllData]
  have hR2 : (recalculateAllData l).updatedInvoices =
      ((sortInv l).foldl replayStep initState).processed := by
    simp [recalculateAllData]
  have hperm1 : npQtySum (sortInv l) = npQtySum l := by
    unfold npQtySum
    exact ((sortInv_perm l).map _).sum_eq
  have hperm2 : npCount (sortInv l) = npCount l := by
    unfold npCount
    exact ((sortInv_perm l).filter _).length_eq
  have hS : npQtySum ((sortInv l).foldl replayStep initState).processed = saleQtySum l := by
    rw [r3, hperm1, npQtySum_eq_saleQtySum l (fun i hi => (h i hi).2)]
    ring
  have hN : npCount ((sortInv l).foldl replayStep initState).processed = saleCount l := by
    rw [r4, hperm2, npCount_eq_saleCount l (fun i hi => (h i hi).2)]
    omega
  rw [hR1, hR2]
  rw [hS] at r5
  rw [hN] at r5
  rw [hS] at r6
  push_cast at r5 r6
  have hnn1 : (0 : ℚ) ≤ eps * (closedCount ((sortInv l).foldl replayStep initState).inventory : ℚ) :=
    mul_nonneg (le_of_lt eps_pos) (Nat.cast_nonneg _)
  have hnn2 : (0 : ℚ) ≤ eps * (saleCount l : ℚ) :=
    mul_nonneg (le_of_lt eps_pos) (Nat.cast_nonneg _)
  rw [abs_le]
  constructor
  · linarith [r5]
  · linarith [r6]

/-- C9 witness purchase (10g). -/
def c9P : Invoice :=
  ⟨"p9", "2024-01-01", some "T1", "PURCHASE", "p", 10, 5000, 0, 0, 50000, 50000, 0, 0, []⟩

/-- C9 witness sale (15g, a stockout). -/
def c9S : Invoice :=
  ⟨"s9", "2024-01-02", some "T2", "SALE", "c", 15, 6000, 0, 0, 90000, 90000, 0, 0, []⟩

/-- Witness instantiating `C9_conservation` on a concrete stockout ledger. -/
theorem C9_conservation_witness :
    |drained (recalculateAllData [c9P, c9S]).updatedInventory -
        (saleQtySum [c9P, c9S] -
          invStockoutSum (recalculateAllData [c9P, c9S]).updatedInvoices)| ≤
      eps * (closedCount (recalculateAllData [c9P, c9S]).updatedInventory : ℚ) +
        eps * (saleCount [c9P, c9S] : ℚ) :=
  C9_conservation [c9P, c9S] (by
    intro i hi
    rcases List.mem_cons.mp hi with rfl | hi
    · exact ⟨by norm_num [c9P], Or.inl rfl⟩
    · rcases List.mem_singleton.mp hi with rfl
      exact ⟨by norm_num [c9S], Or.inr rfl⟩)

/-! ### Claim C8 -/

/-- C8 example: first cloud transaction. -/
def c8T1 : Invoice :=
  ⟨"t1", "2024-01-01", some "T1", "PURCHASE", "cloud1", 10, 100, 0, 0, 1000, 1000, 0, 0, []⟩

/-- C8 example: second cloud transaction. -/
def c8T2 : Invoice :=
  ⟨"t2", "2024-01-02", some "T2", "PURCHASE", "cloud2", 20, 100, 0, 0, 2000, 2000, 0, 0, []⟩

/-- C8 example: local copy of the first cloud transaction (same id). -/
def c8L1 : Invoice :=
  ⟨"t1", "2024-01-01", some "T1", "PURCHASE", "local1", 10, 100, 0, 0, 1000, 1000, 0, 0, []⟩

/-- C8 example: local copy of the second cloud transaction (same id). -/
def c8L2 : Invoice :=
  ⟨"t2", "2024-01-02", some "T2", "PURCHASE", "local2", 20, 100, 0, 0, 2000, 2000, 0, 0, []⟩

/-- C8 example: a genuinely new local transaction. -/
def c8L3 : Invoice :=
  ⟨"t3", "2024-01-03", some "T3", "SALE", "local3", 5, 200, 0, 0, 1000, 1000, 0, 0, []⟩

/-- Claim C8 is false as stated: on the spec's example (2 cloud transactions,
3 local ones of which one is genuinely new) the candidate set does have
exactly 3 transactions with the remote copies preferred, but no needs-sync
signal is surfaced by the merge — the UI's only unsynced-records indicator
compares the local count with the displayed count (App.tsx
`hasMissing = localCount > cloudCount`) and evaluates to `false` here, not
`true`. -/
theorem C8_counterexample :
    ([c8L1, c8L2, c8L3] : List Invoice).length = 3 ∧
    ([c8T1, c8T2] : List Invoice).length = 2 ∧
    finalOrders [c8T1, c8T2] [c8L1, c8L2, c8L3] = [c8T1, c8T2, c8L3] ∧
    (finalOrders [c8T1, c8T2] [c8L1, c8L2, c8L3]).length = 3 ∧
    hasMissing ([c8L1, c8L2, c8L3] : List Invoice).length
      (recalculateAllData
        (finalOrders [c8T1, c8T2] [c8L1, c8L2, c8L3])).updatedInvoices.length = false := by
  have hu : unsyncedLocalOrders [c8T1, c8T2] [c8L1, c8L2, c8L3] = [c8L3] := by
    simp [unsyncedLocalOrders, c8T1, c8T2, c8L1, c8L2, c8L3]
  have hfo : finalOrders [c8T1, c8T2] [c8L1, c8L2, c8L3] = [c8T1, c8T2, c8L3] := by
    unfold finalOrders
    rw [hu]
    norm_num
  refine ⟨rfl, rfl, hfo, ?_, ?_⟩
  · rw [hfo]
    rfl
  · rw [hfo, recalc_length]
    rfl

/-- Claim C8 (amended): when the remote fetch succeeds the candidate set is
the local set if remote is empty and local is not, remote plus
`unsynced = local − remote` (by id, remote copies preferred) when unsynced
is non-empty, and remote alone when unsynced is empty; the merge surfaces no
needs-sync signal (the counterexample shows the UI indicator reading false
on the spec's example). -/
theorem C8_reconciler (cloudOrders localOrders : List Invoice) :
    (cloudOrders = [] → localOrders ≠ [] →
      finalOrders cloudOrders localOrders = localOrders) ∧
    (cloudOrders ≠ [] → unsyncedLocalOrders cloudOrders localOrders ≠ [] →
      finalOrders cloudOrders localOrders =
        cloudOrders ++ unsyncedLocalOrders cloudOrders localOrders) ∧
    (unsyncedLocalOrders cloudOrders localOrders = [] →
      finalOrders cloudOrders localOrders = cloudOrders) ∧
    (∀ lo ∈ localOrders, lo.id ∈ cloudOrders.map Invoice.id →
      lo ∉ unsyncedLocalOrders cloudOrders localOrders) := by
  refine ⟨?_, ?_, ?_, ?_⟩
  · intro h1 h2
    have hcond : cloudOrders.length = 0 ∧ 0 < localOrders.length :=
      ⟨by rw [h1]; rfl, List.length_pos.mpr h2⟩
    unfold finalOrders
    rw [if_pos hcond]
  · intro h1 h2
    have hc1 : ¬ (cloudOrders.length = 0 ∧ 0 < localOrders.length) := fun hc =>
      h1 (List.length_eq_zero.mp hc.1)
    have hc2 : 0 < (unsyncedLocalOrders cloudOrders localOrders).length :=
      List.length_pos.mpr h2
    unfold finalOrders
    rw [if_neg hc1, if_pos hc2]
  · intro h
    by_cases hc1 : cloudOrders.length = 0 ∧ 0 < localOrders.length
    · exfalso
      have hce : cloudOrders = [] := List.length_eq_zero.mp hc1.1
      have : unsyncedLocalOrders cloudOrders localOrders = localOrders := by
        rw [hce]
        simp [unsyncedLocalOrders]
      rw [this] at h
      rw [h] at hc1
      exact absurd hc1.2 (by simp)
    · unfold finalOrders
      rw [if_neg hc1, if_neg (by rw [h]; simp)]
  · intro lo hlo hid hmem
    have hm := (List.mem_filter.mp hmem).2
    simp only [Bool.not_eq_true'] at hm
    simp at hm
    obtain ⟨x, hx, hxe⟩ := List.mem_map.mp hid
    exact hm x hx hxe

/-- Witness instantiating `C8_reconciler` on concrete inputs (bootstrap case
and unsynced-empty case). -/
theorem C8_reconciler_witness :
    finalOrders [] [c8L3] = [c8L3] ∧ finalOrders [c8T1] [] = [c8T1] :=
  ⟨(C8_reconciler [] [c8L3]).1 rfl (by simp),
   (C8_reconciler [c8T1] []).2.2.1 rfl⟩
